import Mathlib

/-!
Verification development for the ai-project-analizer pipeline.

The Python sources are shallowly embedded: pure helpers become Lean
functions, stateful agents become explicit state-passing functions, file
system and network effects become explicit oracle parameters, and raised
exceptions become `Except` / `Option` results.  Paths are modelled in
parsed form: an absolute flag plus a list of path segments, rendered back
to strings with a forward-slash separator exactly where the Python code
compares strings.
-/

namespace AIPA

/-! ## Path model (pathlib semantics used by the pipeline) -/

/-- A parsed filesystem path: `absolute` mirrors a leading slash, `segs`
are the path components (which may still contain `..` or `.` entries
before resolution). -/
structure PurePath where
  absolute : Bool
  segs : List String
deriving DecidableEq

/-- One step of `Path.resolve()` normalisation: `.` and empty components
vanish, `..` pops the last component (at the root it is a no-op, matching
`/.. = /`), anything else is appended. -/
def normStep (acc : List String) (s : String) : List String :=
  if s = "." || s = "" then acc
  else if s = ".." then acc.dropLast
  else acc ++ [s]

/-- Resolve a segment list of an absolute path, eliminating `.` and `..`
as `Path.resolve()` does on a freshly created directory (no symlinks). -/
def resolveSegs (segs : List String) : List String :=
  segs.foldl normStep []

/-- `base / p` for pathlib: an absolute right operand discards the base. -/
def joinUnder (base : List String) (p : PurePath) : List String :=
  if p.absolute then p.segs else base ++ p.segs

/-- `(tmp_dir / member.filename).resolve()` where `base` is the already
resolved segment list of the temporary directory. -/
def resolveTarget (base : List String) (p : PurePath) : List String :=
  resolveSegs (joinUnder base p)

/-- Characters of the string rendering of an absolute path: a leading
slash before every component. -/
def renderChars : List String → List Char
  | [] => []
  | s :: rest => '/' :: s.data ++ renderChars rest

/-- String rendering of an absolute path (`str(path)` for a non-root
absolute path). -/
def renderAbs (segs : List String) : String :=
  String.mk (renderChars segs)

/-- Python `str.lower` on the ASCII range (character-wise), which is all
the rule tables compare. -/
def pyLower (s : String) : String :=
  String.mk (s.data.map Char.toLower)

/-- Python `str.startswith`: the candidate prefix is a character prefix. -/
def pyStartswith (s pre : String) : Bool :=
  pre.data.isPrefixOf s.data

/-- Spec-side notion used by the confinement claim: the canonical target
is a descendant of the working directory, i.e. the directory segments are
a segment-wise prefix of the target segments. -/
def specIsDescendant (base target : List String) : Bool :=
  base.isPrefixOf target

/-! ## file_io_tool: priority_score, looks_binary -/

/-- Final path component of a path string (the part after the last
slash), as `Path(s).name` on the slash-normalised strings the events
carry. -/
def lastSegS (s : String) : String :=
  String.mk ((s.data.reverse.takeWhile (fun c => c ≠ '/')).reverse)

/-- Index of the last dot of a character list, if any. -/
def lastDotIdx (cs : List Char) : Option Nat :=
  (List.range cs.length).foldl
    (fun acc i => if cs.getD i ' ' = '.' then some i else acc) none

/-- `PurePath.suffix`: the extension from the last dot, present only when
the dot is neither the first nor the last character of the name. -/
def pySuffix (name : String) : String :=
  let cs := name.data
  match lastDotIdx cs with
  | some i => if 0 < i && i + 1 < cs.length then String.mk (cs.drop i) else ""
  | none => ""

/-- `PurePath.stem`: the name with the suffix removed. -/
def pyStem (name : String) : String :=
  let cs := name.data
  match lastDotIdx cs with
  | some i => if 0 < i && i + 1 < cs.length then String.mk (cs.take i) else name
  | none => name

/-- High-signal stems of `priority_score`. -/
def highSignalStems : List String :=
  ["readme", "license", "setup", "pyproject", "package",
   "requirements", "dockerfile", "compose", "makefile", "main", "app"]

/-- Source and configuration extensions of `priority_score`. -/
def sourceConfigExts : List String :=
  [".py", ".js", ".json", ".yml", ".yaml", ".toml", ".sh"]

/-- Documentation extensions of `priority_score`. -/
def docExts : List String :=
  [".md", ".rst", ".txt"]

/-- `priority_score` from file_io_tool.py: first-match-wins rule table on
the lower-cased stem and extension of the final path component. -/
def priority_score (path : String) : Nat :=
  let stem := pyLower (pyStem (lastSegS path))
  let ext := pyLower (pySuffix (lastSegS path))
  if stem ∈ highSignalStems then 100
  else if ext ∈ sourceConfigExts then 80
  else if ext ∈ docExts then 70
  else 10

/-- The rule table exactly as the claim words it: a function of the
lower-cased stem and extension alone. -/
def spec_priority_score (stem ext : String) : Nat :=
  if stem ∈ highSignalStems then 100
  else if ext ∈ sourceConfigExts then 80
  else if ext ∈ docExts then 70
  else 10

/-- Bytes counted as non-printable by `looks_binary`. -/
def nonPrintableByte (b : Nat) : Bool :=
  b < 9 || (13 < b && b < 32)

/-- `looks_binary` from file_io_tool.py.  The file system is an oracle
from path strings to `none` (read error) or the byte list of the file.
The float comparison `ratio > 0.30` agrees with the exact rational
comparison `10 * count > 3 * len` for every sample of at most 1024
bytes, because a nonzero difference `count/len - 3/10` is at least
`1/10240`, far above the rounding error of the IEEE division. -/
def looks_binary (fs : String → Option (List Nat)) (path : String)
    (sample : Nat) : Bool :=
  match fs path with
  | none => true
  | some bytes =>
    let chunk := bytes.take sample
    if chunk = [] then false
    else 10 * (chunk.filter nonPrintableByte).length > 3 * chunk.length

/-! ## safe_extract (extraction_agent.py version) -/

/-- One archive member: a parsed filename, the declared uncompressed
size in bytes, and whether its CRC check passes. -/
structure ZipMember where
  filename : PurePath
  fileSize : Nat
  crcOk : Bool
deriving DecidableEq

/-- An opened zip archive: its member list. -/
structure ZipArchive where
  members : List ZipMember
deriving DecidableEq

/-- Zip-internal name of a member (slash-joined, no leading slash). -/
def memberName (p : PurePath) : String :=
  String.intercalate "/" p.segs

/-- `zf.testzip()`: name of the first member failing its CRC check. -/
def testzip (zf : ZipArchive) : Option String :=
  (zf.members.find? (fun m => !m.crcOk)).map (fun m => memberName m.filename)

/-- Structured form of the exceptions raised by `safe_extract`; each
constructor carries the data the Python message embeds. -/
inductive ExtractError where
  | badZip (member : String)
  | oversize (member : PurePath) (size : Nat)
  | illegalPath (member : PurePath)
deriving DecidableEq

/-- The per-member check loop of `safe_extract`: the size limit, then
the Zip-Slip string-prefix test, member by member; the first failure
wins. -/
def checkMembers (base : List String) (maxBytes : Nat) :
    List ZipMember → Option ExtractError
  | [] => none
  | m :: ms =>
    if m.fileSize > maxBytes then some (.oversize m.filename m.fileSize)
    else if !(pyStartswith (renderAbs (resolveTarget base m.filename))
                (renderAbs base)) then
      some (.illegalPath m.filename)
    else checkMembers base maxBytes ms

/-- Result of `safe_extract`: whether the temporary directory was
created, which members were written into it, and the outcome. -/
structure ExtractOutcome where
  tmpCreated : Bool
  written : List PurePath
  result : Except ExtractError Unit

/-- `safe_extract` from extraction_agent.py, over a freshly created
temporary directory `base` (resolved segments) and a per-member byte
limit.  The CRC scan runs first, then the check loop over every member,
and only then `extractall` writes every member. -/
def safe_extract (base : List String) (maxBytes : Nat) (zf : ZipArchive) :
    ExtractOutcome :=
  match testzip zf with
  | some bad => ⟨true, [], .error (.badZip bad)⟩
  | none =>
    match checkMembers base maxBytes zf.members with
    | some e => ⟨true, [], .error e⟩
    | none => ⟨true, zf.members.map (·.filename), .ok ()⟩

/-! ## ExtractionAgent (extraction_agent.py) -/

/-- Events emitted by the extraction agent; `extractionFailed` carries
the failure reason (the Python code carries `str(exc)` of the same
exception). -/
inductive ExtEvent where
  | fileDiscovered (path : String)
  | extractionFailed (reason : ExtractError)
  | extractionDone (baseDir : String)
deriving DecidableEq

/-- Result of one `ExtractionAgent.handle` call on a ZipValid event:
the emitted events, whether the temporary directory was created, and
whether the agent recorded it in `self._tmp_dir` (which happens only
when `safe_extract` returns). -/
structure ExtractionHandleResult where
  events : List ExtEvent
  tmpCreated : Bool
  tmpDirRecorded : Bool
deriving DecidableEq

/-- `ExtractionAgent.handle` on a ZipValid event: run `safe_extract`;
on an exception emit exactly one ExtractionFailed and return; on success
walk the extracted tree (here: the written members) emitting one
FileDiscovered per file, then one ExtractionDone. -/
def extraction_handle (base : List String) (maxBytes : Nat)
    (zf : ZipArchive) : ExtractionHandleResult :=
  let o := safe_extract base maxBytes zf
  match o.result with
  | .error e => ⟨[.extractionFailed e], o.tmpCreated, false⟩
  | .ok _ =>
    ⟨(o.written.map (fun f =>
        ExtEvent.fileDiscovered (renderAbs (resolveTarget base f))))
      ++ [.extractionDone (renderAbs base)], o.tmpCreated, true⟩

/-- `ExtractionAgent.on_shutdown`: the temporary directory is deleted
only when the agent recorded it (success) and the settings flag is on.
Returns whether the directory gets removed. -/
def extraction_shutdown_removes (deleteFlag : Bool)
    (r : ExtractionHandleResult) : Bool :=
  r.tmpDirRecorded && deleteFlag

/-! ## FileTriageAgent (file_triage_agent.py) -/

/-- Modelled from the spec: `ASSET_SKIP_EXTS` is imported by
file_triage_agent.py from file_io_tool.py but is defined nowhere under
the sources; the spec calls it the set of known asset extensions, which
the sources give concretely as `ASSET_EXTS` in file_analysis_agent.py. -/
def ASSET_SKIP_EXTS : List String :=
  [".png", ".jpg", ".jpeg", ".gif", ".pdf", ".mp4", ".ico"]

/-- Events emitted by the triage agent. -/
inductive TriageOut where
  | fileForAnalysis (path : String) (score : Nat)
  | fileSkipped (path : String) (reason : String)
  | triageComplete
deriving DecidableEq

/-- Triage agent state: the accumulated queue of (score, path) pairs in
discovery order, and the extraction-done latch. -/
structure TriageState where
  queue : List (Nat × String)
  extractionDone : Bool
deriving DecidableEq

/-- The skip test of `FileTriageAgent._handle_file`: the binary sniff
(with its default 1024-byte sample) or a lower-cased asset extension. -/
def triage_skip_cond (fs : String → Option (List Nat)) (path : String) : Bool :=
  looks_binary fs path 1024
    || decide (pyLower (pySuffix (lastSegS path)) ∈ ASSET_SKIP_EXTS)

/-- `FileTriageAgent._handle_file`: skip (emitting FileSkipped) when the
binary sniff or the asset extension set fires, otherwise append the file
with its priority score to the queue. -/
def triage_handle_file (fs : String → Option (List Nat))
    (s : TriageState) (path : String) : TriageState × List TriageOut :=
  if triage_skip_cond fs path then
    (s, [.fileSkipped path "binary/asset"])
  else
    ({ s with queue := s.queue ++ [(priority_score path, path)] }, [])

/-- Stable insertion used to model `sorted(queue, key=lambda t: -t[0])`:
an element passes over strictly greater keys and stops before the first
key less than or equal to its own, so earlier elements stay before later
elements of equal key. -/
def insertDesc {α : Type} (key : α → Nat) (x : α) :
    List α → List α
  | [] => [x]
  | y :: ys => if key x < key y then y :: insertDesc key x ys
               else x :: y :: ys

/-- Stable descending sort by `key`, the descending-with-stable-ties
order that the documented-stable Python `sorted` produces for the key
`-t[0]`. -/
def sortDesc {α : Type} (key : α → Nat) : List α → List α
  | [] => []
  | x :: xs => insertDesc key x (sortDesc key xs)

/-- `FileTriageAgent._flush_queue`: emit one FileForAnalysis per queue
entry in stable descending score order (the payload score is recomputed
with `priority_score`, as in the source), then a single TriageComplete. -/
def triage_flush_queue (s : TriageState) : TriageState × List TriageOut :=
  (s, (sortDesc Prod.fst s.queue).map
        (fun t => TriageOut.fileForAnalysis t.2 (priority_score t.2))
      ++ [.triageComplete])

/-! ## FileAnalysisAgent (file_analysis_agent.py)

Text is manipulated on `List Char`; string literals reproduce the Python
message texts except that quote characters inside messages are not
reproduced (formatting only, never load-bearing for a claim). -/

/-- Python whitespace, as used by `str.strip` and the regex class. -/
def pySpace (c : Char) : Bool :=
  c = ' ' || c = '\t' || c = '\n' || c = '\r'
    || c = Char.ofNat 11 || c = Char.ofNat 12

/-- `str.strip()` on characters. -/
def pyStripChars (cs : List Char) : List Char :=
  ((cs.dropWhile pySpace).reverse.dropWhile pySpace).reverse

/-- `str.rstrip()` on characters. -/
def pyRstripChars (cs : List Char) : List Char :=
  (cs.reverse.dropWhile pySpace).reverse

/-- The capture of `re.match(r"^#{1,6}\s+(.+)", text)`: the full run of
leading hash marks must have length one to six and be followed by a
whitespace character; the capture is the maximal run of non-newline
characters after the whitespace run.  On text that has been stripped the
whitespace run is never trailing, so no regex backtracking case arises;
the all-whitespace-tail case (unreachable after stripping) is mapped to
no match. -/
def headingGroup (cs : List Char) : Option (List Char) :=
  let run := (cs.takeWhile (· = '#')).length
  if 1 ≤ run && run ≤ 6 then
    let rest := cs.drop run
    match rest with
    | [] => none
    | c :: _ =>
      if pySpace c then
        match rest.dropWhile pySpace with
        | [] => none
        | rest2 => some (rest2.takeWhile (· ≠ '\n'))
      else none
  else none

/-- Index of the first match of `re.search(r"[.!?]\s", text)`. -/
def findSentence : List Char → Nat → Option Nat
  | c1 :: c2 :: rest, i =>
    if (c1 = '.' || c1 = '!' || c1 = '?') && pySpace c2 then some i
    else findSentence (c2 :: rest) (i + 1)
  | _, _ => none

/-- `summarise_text` from file_analysis_agent.py: strip, then the
heading capture; else the prefix up to the first sentence terminator
when it starts within `maxChars`; else truncate to `maxChars`
characters with an ellipsis when longer. -/
def summarise_text (s : String) (maxChars : Nat) : String :=
  let text := pyStripChars s.data
  match headingGroup text with
  | some g => String.mk g
  | none =>
    let trunc :=
      if text.length > maxChars then String.mk (text.take maxChars ++ ['…'])
      else String.mk text
    match findSentence text 0 with
    | some i =>
      if i < maxChars then String.mk (pyStripChars (text.take (i + 2)))
      else trunc
    | none => trunc

/-- The `FileAnalysisResult` payload (`rel_path`, `kind`, `summary`). -/
structure AnalysisEntry where
  rel_path : String
  kind : String
  summary : String
deriving DecidableEq

/-- `ASSET_EXTS` from file_analysis_agent.py. -/
def ASSET_EXTS : List String :=
  [".png", ".jpg", ".jpeg", ".gif", ".pdf", ".mp4", ".ico"]

/-- Outcome of `ast.parse` as the `.py` branch observes it.  Unlike the
JSON and YAML branches, that branch catches only `SyntaxError`, so the
other exceptions `ast.parse` can raise — `RecursionError` on deeply
nested source, `ValueError` on null bytes on Python 3.11 and earlier —
are NOT caught and propagate out of `analyse_file`. -/
inductive PyParseOutcome where
  | parsed (funcs classes : List String)
  | syntaxError
  | otherError (msg : String)
deriving DecidableEq

/-- Oracles for the standard-library parsers used by `analyse_file`.
`jsonKeys raw` is the list of strings produced by
`", ".join(list(json.loads(raw))[:5]...)`-style key listing, `none`
whenever any exception occurs inside the corresponding `try` block
(parse failure, a non-string-iterable result, or a recursion overflow —
all subclasses of `Exception`, all caught); similarly for `yamlKeys`.
`pyDefs raw` is the three-way `ast.parse` outcome: the top-level
definition names, a caught `SyntaxError`, or an uncaught exception that
the `.py` branch re-raises. -/
structure ParseOracles where
  jsonKeys : String → Option (List String)
  yamlAvailable : Bool
  yamlKeys : String → Option (List String)
  pyDefs : String → PyParseOutcome

/-- `str(rel)` for a relative path: `"."` when empty. -/
def renderRel (segs : List String) : String :=
  if segs = [] then "." else String.intercalate "/" segs

/-- `path.relative_to(base)`: defined exactly when `base` is a
segment-wise prefix of `path`, otherwise a ValueError is raised. -/
def relTo (p base : List String) : Option (List String) :=
  if base.isPrefixOf p then some (p.drop base.length) else none

/-- Last path segment of a segment list (used for `path.suffix`). -/
def lastSeg (p : List String) : String :=
  p.getLastD ""

/-- The format-dispatch chain of `analyse_file` after the asset check:
JSON, then YAML (only when the yaml module imported), then the Python
syntax parse, each falling through to the next on a caught failure; the
generic text summary is the final fallback.  The `.py` branch catches
only `SyntaxError`: any other `ast.parse` exception is re-raised
(`Except.error`). -/
def analyseText (po : ParseOracles) (relS ext raw : String) :
    Except String AnalysisEntry :=
  match (if ext = ".json" then po.jsonKeys raw else none) with
  | some ks =>
    .ok ⟨relS, "json", "JSON with keys: " ++ String.intercalate ", " (ks.take 5)⟩
  | none =>
    match (if (ext = ".yml" || ext = ".yaml") && po.yamlAvailable then
             po.yamlKeys raw else none) with
    | some ks =>
      .ok ⟨relS, "yaml", "YAML with keys: " ++ String.intercalate ", " (ks.take 5)⟩
    | none =>
      if ext = ".py" then
        match po.pyDefs raw with
        | .parsed funcs classes =>
          let parts := ["Python"]
            ++ (if classes ≠ [] then
                  ["classes=" ++ String.intercalate ", " (classes.take 3)] else [])
            ++ (if funcs ≠ [] then
                  ["funcs=" ++ String.intercalate ", " (funcs.take 3)] else [])
          .ok ⟨relS, "python", String.intercalate "; " parts⟩
        | .syntaxError => .ok ⟨relS, "text", summarise_text raw 160⟩
        | .otherError msg => .error msg
      else .ok ⟨relS, "text", summarise_text raw 160⟩

/-- `analyse_file` from file_analysis_agent.py: compute the relative
path (raising when the path is not under the base), answer the fixed
asset placeholder for asset extensions without reading, otherwise read
the text (total: `read_text_safe` never raises, modelled by the total
oracle `fs`) and dispatch on the extension. -/
def analyse_file (po : ParseOracles) (fs : List String → String)
    (p base : List String) : Except String AnalysisEntry :=
  match relTo p base with
  | none => .error "ValueError: path not relative to base"
  | some rel =>
    let relS := renderRel rel
    let ext := pyLower (pySuffix (lastSeg p))
    if ext ∈ ASSET_EXTS then .ok ⟨relS, "asset", "(binary skipped)"⟩
    else analyseText po relS ext (fs p)

/-- State of the file analysis agent. -/
structure FAState where
  baseDir : Option (List String)
  results : List AnalysisEntry
deriving DecidableEq

/-- Events emitted by the file analysis agent. -/
inductive FAOut where
  | fileAnalysed (e : AnalysisEntry)
  | analysisComplete
deriving DecidableEq

/-- `FileAnalysisAgent._analyse`: base defaults to the parent of the
path when no ExtractionDone has recorded a base directory; an exception
from `analyse_file` propagates (no event emitted), otherwise the result
is appended once and emitted once. -/
def fa_analyse (po : ParseOracles) (fs : List String → String)
    (s : FAState) (p : List String) : Except String (FAState × List FAOut) :=
  let base := s.baseDir.getD p.dropLast
  match analyse_file po fs p base with
  | .error e => .error e
  | .ok entry => .ok ({ s with results := s.results ++ [entry] },
                      [.fileAnalysed entry])

/-! ## ZipValidatorAgent (zip_validator_agent.py) -/

/-- Outcome of the whole-archive CRC scan (`zf.testzip()` inside its
`try` block): opening can raise BadZipFile, the scan can name a corrupt
member, or everything is clean. -/
inductive CrcOutcome where
  | readError (msg : String)
  | corruptMember (name : String)
  | clean
deriving DecidableEq

/-- Read-only facts the validator inspects about the candidate file. -/
structure ArchiveInfo where
  present : Bool
  sizeBytes : Nat
  isZipfile : Bool
  crc : CrcOutcome
deriving DecidableEq

/-- The validator verdict events. -/
inductive ValidatorOut where
  | zipValid (zipPath : String)
  | zipInvalid (zipPath : String) (reason : String)
deriving DecidableEq

/-- `ZipValidatorAgent.handle` on a NewUpload event: existence, size
limit, container well-formedness, CRC scan, in that order, emitting
ZipInvalid with the reason of the first failing check and ZipValid when
all pass. -/
def zip_validator_handle (limitMB : Nat) (zipPath : String)
    (a : ArchiveInfo) : ValidatorOut :=
  if !a.present then .zipInvalid zipPath "File does not exist"
  else if a.sizeBytes > limitMB * 1048576 then
    .zipInvalid zipPath ("Archive exceeds " ++ toString limitMB ++ " MB")
  else if !a.isZipfile then .zipInvalid zipPath "Not a ZIP archive"
  else
    match a.crc with
    | .readError m => .zipInvalid zipPath ("ZIP read error: " ++ m)
    | .corruptMember n => .zipInvalid zipPath ("CRC error in member: " ++ n)
    | .clean => .zipValid zipPath

/-! ## language_detector.py -/

/-- Python `str.endswith`. -/
def pyEndswith (s suf : String) : Bool :=
  suf.data.isSuffixOf s.data

/-- `guess_stack` from language_detector.py (the mixed-language fallback
string carries the same unicode hyphen as the source). -/
def guess_stack (entries : List AnalysisEntry) : String :=
  let paths := entries.map (fun e => (pyLower e.rel_path))
  if paths.any (fun p => pyEndswith p "setup.py" || pyEndswith p "pyproject.toml")
  then "Python package"
  else if paths.any (fun p => pyEndswith p "package.json") then "Node.js project"
  else if paths.any (fun p => pyEndswith p "dockerfile") then "Containerized service"
  else if paths.any (fun p => pyEndswith p "go.mod") then "Go module"
  else if paths.any (fun p => pyEndswith p "pom.xml") then "Java Maven project"
  else "Unknown or mixed‐language project"

/-- Occurrence count of one value in a list of strings. -/
def countOcc (l : List String) (k : String) : Nat :=
  (l.filter (fun x => x == k)).length

/-- Keys of a `Counter` in first-insertion order. -/
def firstSeenKeys (l : List String) : List String :=
  l.foldl (fun acc k => if k ∈ acc then acc else acc ++ [k]) []

/-- `detect_dominant_language`: `Counter(kinds).most_common(1)`, whose
tie-breaking picks the first-encountered kind among maximal counts
(`max` over the insertion-ordered dict). -/
def detect_dominant_language (entries : List AnalysisEntry) : String × Nat :=
  let kinds := entries.map (fun e => e.kind)
  match firstSeenKeys kinds with
  | [] => ("unknown", 0)
  | k0 :: rest =>
    rest.foldl
      (fun best k =>
        let c := countOcc kinds k
        if c > best.2 then (k, c) else best)
      (k0, countOcc kinds k0)

/-- `str.rstrip(".")` on a string. -/
def rstripDots (s : String) : String :=
  String.mk ((s.data.reverse.dropWhile (· = '.')).reverse)

/-- `find_readme_first_line`: the summary of the first entry whose
lower-cased relative path starts with readme and whose kind starts with
text, with trailing dots normalised to a single one. -/
def find_readme_first_line (entries : List AnalysisEntry) : Option String :=
  (entries.find? (fun e =>
      pyStartswith (pyLower e.rel_path) "readme" && pyStartswith e.kind "text")).map
    (fun e => rstripDots e.summary ++ ".")

/-- `synthesise_project` from language_detector.py with its default
bound of 300 characters (the tree text parameter is accepted and, as in
the source body, unused). -/
def synthesise_project (entries : List AnalysisEntry) (_treeText : String) :
    String :=
  let dom := detect_dominant_language entries
  let stack := guess_stack entries
  let hasDocker := entries.any (fun e => pyEndswith (pyLower e.rel_path) "dockerfile")
  let hasSetup := entries.any (fun e =>
    pyEndswith (pyLower e.rel_path) "setup.py"
      || pyEndswith (pyLower e.rel_path) "pyproject.toml")
  let hasPkg := entries.any (fun e => pyEndswith (pyLower e.rel_path) "package.json")
  let parts :=
    (match find_readme_first_line entries with
     | some r => [r]
     | none => [])
    ++ ["The dominant file type is *" ++ dom.1 ++ "* (count: "
          ++ toString dom.2 ++ ")."]
    ++ (if stack ≠ "" then ["Inferred tech stack: " ++ stack ++ "."] else [])
    ++ (if hasDocker then
          ["Presence of a Dockerfile suggests containerized deployment."]
        else [])
    ++ (if hasSetup then
          ["Packaging metadata indicates a Python package."] else [])
    ++ (if hasPkg then
          ["Including package.json reveals a Node.js component."] else [])
  let parts :=
    if parts = [] then
      ["No README or identifiable files found; unclear project purpose."]
    else parts
  let summary := String.intercalate " " parts
  if summary.length > 300 then
    String.mk (pyRstripChars (summary.data.take 299)) ++ "…"
  else summary

/-! ## SummarySynthesizerAgent (summary_synthesizer_agent.py) -/

/-- Incoming events of the synthesizer. -/
inductive SynEvent where
  | treeBuilt (treePath : String)
  | fileAnalysed (e : AnalysisEntry)
  | analysisComplete
deriving DecidableEq

/-- Outgoing events of the synthesizer. -/
inductive SynOut where
  | projectDraft (draft : String)
  | summaryPolished (summaryPath : String)
deriving DecidableEq

/-- Synthesizer state: the loaded tree text (None before TreeBuilt),
accumulated analyses, the analysis-complete latch, and the memory
dictionary. -/
structure SynState where
  treeText : Option String
  analyses : List AnalysisEntry
  analysisDone : Bool
  memory : List (String × String)

/-- `dict.get`: the first binding of a key. -/
def memGet (mem : List (String × String)) (k : String) : Option String :=
  (mem.find? (fun q => q.1 == k)).map (fun q => q.2)

/-- `self.memory.get(tree_path, "")`. -/
def memGetD (mem : List (String × String)) (k : String) : String :=
  (memGet mem k).getD ""

/-- Python truthiness of `self._tree_text` (None and the empty string
are falsy). -/
def truthyTree : Option String → Bool
  | none => false
  | some s => !(s == "")

/-- `SummarySynthesizerAgent._polish`: the LLM router call is an oracle
from the draft to a result or an exception; any exception falls back to
the unmodified draft. -/
def syn_polish (llm : String → Except String String) (raw : String) : String :=
  match llm raw with
  | .ok r => r
  | .error _ => raw

/-- `SummarySynthesizerAgent._maybe_finish`: when the analysis-complete
latch is set and the tree text is truthy, compose the draft, emit
ProjectDraft, polish, store the final text in memory, and emit
SummaryPolished; otherwise do nothing.  The method has no
finished-already latch. -/
def maybe_finish (llm : String → Except String String) (s : SynState) :
    SynState × List SynOut :=
  if s.analysisDone && truthyTree s.treeText then
    let draft := synthesise_project s.analyses (s.treeText.getD "")
    let polished := syn_polish llm draft
    ({ s with memory := ("project_summary.txt", polished) :: s.memory },
     [.projectDraft draft, .summaryPolished "project_summary.txt"])
  else (s, [])

/-- `SummarySynthesizerAgent.handle`. -/
def syn_handle (llm : String → Except String String) (s : SynState) :
    SynEvent → SynState × List SynOut
  | .treeBuilt tp => maybe_finish llm { s with treeText := some (memGetD s.memory tp) }
  | .fileAnalysed e => ({ s with analyses := s.analyses ++ [e] }, [])
  | .analysisComplete => maybe_finish llm { s with analysisDone := true }

/-- Deliver a sequence of events, accumulating the emitted outputs. -/
def syn_run (llm : String → Except String String) (s : SynState) :
    List SynEvent → SynState × List SynOut
  | [] => (s, [])
  | e :: es =>
    let r1 := syn_handle llm s e
    let r2 := syn_run llm r1.1 es
    (r2.1, r1.2 ++ r2.2)

/-- Number of ProjectDraft events in an output list (finalize runs). -/
def countDrafts (outs : List SynOut) : Nat :=
  (outs.filter (fun o => match o with
    | .projectDraft _ => true
    | _ => false)).length

/-! ## Sorting lemmas for the triage queue -/

theorem insertDesc_perm {α : Type} (key : α → Nat) (x : α) (l : List α) :
    List.Perm (insertDesc key x l) (x :: l) := by
  induction l with
  | nil => exact List.Perm.refl _
  | cons y ys ih =>
    unfold insertDesc
    split
    · exact (ih.cons y).trans (List.Perm.swap x y ys)
    · exact List.Perm.refl _

theorem sortDesc_perm {α : Type} (key : α → Nat) (l : List α) :
    List.Perm (sortDesc key l) l := by
  induction l with
  | nil => exact List.Perm.refl _
  | cons x xs ih => exact (insertDesc_perm key x _).trans (ih.cons x)

theorem insertDesc_pairwise {α : Type} (key : α → Nat) (x : α) (l : List α)
    (h : l.Pairwise (fun a b => key b ≤ key a)) :
    (insertDesc key x l).Pairwise (fun a b => key b ≤ key a) := by
  induction l with
  | nil => simp [insertDesc]
  | cons y ys ih =>
    rcases h with - | ⟨hy, hys⟩
    unfold insertDesc
    split
    · refine List.Pairwise.cons ?_ (ih hys)
      intro b hb
      rcases List.mem_cons.mp ((insertDesc_perm key x ys).mem_iff.mp hb) with hbx | hbys
      · subst hbx; omega
      · exact hy b hbys
    · refine List.Pairwise.cons ?_ (List.Pairwise.cons hy hys)
      intro b hb
      rcases List.mem_cons.mp hb with hby | hbys
      · subst hby; omega
      · have := hy b hbys; omega

theorem sortDesc_pairwise {α : Type} (key : α → Nat) (l : List α) :
    (sortDesc key l).Pairwise (fun a b => key b ≤ key a) := by
  induction l with
  | nil => simp [sortDesc]
  | cons x xs ih => exact insertDesc_pairwise key x _ ih

theorem insertDesc_filter {α : Type} (key : α → Nat) (x : α) (l : List α)
    (c : Nat) :
    (insertDesc key x l).filter (fun a => decide (key a = c))
      = if key x = c then x :: l.filter (fun a => decide (key a = c))
        else l.filter (fun a => decide (key a = c)) := by
  induction l with
  | nil => by_cases hx : key x = c <;> simp [insertDesc, hx]
  | cons y ys ih =>
    unfold insertDesc
    split
    · rename_i hlt
      rw [List.filter_cons, List.filter_cons, ih]
      by_cases hx : key x = c
      · have hy : ¬ key y = c := by omega
        simp [hx, hy]
      · simp [hx]
    · rw [List.filter_cons]
      by_cases hx : key x = c
      · simp [hx]
      · simp [hx]

theorem sortDesc_stable {α : Type} (key : α → Nat) (l : List α) (c : Nat) :
    (sortDesc key l).filter (fun a => decide (key a = c))
      = l.filter (fun a => decide (key a = c)) := by
  induction l with
  | nil => rfl
  | cons x xs ih =>
    unfold sortDesc
    rw [insertDesc_filter, List.filter_cons, ih]
    by_cases hx : key x = c
    · simp [hx]
    · simp [hx]

/-! ## Claim theorems -/

/-- C5: on the extraction-done signal the triage stage emits one
FileForAnalysis per queued entry, in the order of a stable descending
sort of the queue by score (ties in original discovery order: for every
score value the subsequence of entries with that score is exactly the
discovery-order subsequence), followed by exactly one TriageComplete. -/
theorem c5_flush_queue_order (q : List (Nat × String)) (done : Bool) :
    (triage_flush_queue ⟨q, done⟩).2
      = (sortDesc Prod.fst q).map
          (fun t => TriageOut.fileForAnalysis t.2 (priority_score t.2))
        ++ [TriageOut.triageComplete]
    ∧ List.Perm (sortDesc Prod.fst q) q
    ∧ (sortDesc Prod.fst q).Pairwise (fun a b => b.1 ≤ a.1)
    ∧ ∀ c, (sortDesc Prod.fst q).filter (fun t => decide (t.1 = c))
        = q.filter (fun t => decide (t.1 = c)) :=
  ⟨rfl, sortDesc_perm Prod.fst q, sortDesc_pairwise Prod.fst q,
   fun c => sortDesc_stable Prod.fst q c⟩

/-- Recogniser for FileForAnalysis events. -/
def isFFA : TriageOut → Bool
  | .fileForAnalysis _ _ => true
  | _ => false

/-- C10: each FileDiscovered is either skipped (one FileSkipped, never
queued) exactly when the binary sniff or the asset extension set fires,
or queued exactly once with its priority score and no event; and the
flush later emits exactly one FileForAnalysis per queued entry. -/
theorem c10_triage_dichotomy (fs : String → Option (List Nat))
    (st : TriageState) (path : String) :
    (triage_skip_cond fs path = true →
       triage_handle_file fs st path = (st, [.fileSkipped path "binary/asset"]))
    ∧ (triage_skip_cond fs path = false →
       triage_handle_file fs st path
         = ({ st with queue := st.queue ++ [(priority_score path, path)] }, []))
    ∧ ∀ q done, ((triage_flush_queue ⟨q, done⟩).2.filter isFFA).length
        = q.length := by
  refine ⟨fun h => ?_, fun h => ?_, fun q done => ?_⟩
  · simp [triage_handle_file, h]
  · simp [triage_handle_file, h]
  · have hlen : (sortDesc Prod.fst q).length = q.length :=
      (sortDesc_perm Prod.fst q).length_eq
    have hcomp : (isFFA ∘ fun t : Nat × String =>
        TriageOut.fileForAnalysis t.2 (priority_score t.2)) = fun _ => true := by
      funext t; rfl
    simp [triage_flush_queue, List.filter_append, List.filter_map, isFFA,
      hcomp, hlen]

/-- C10 witness: a three-NUL-byte file is sniffed binary and skipped; a
readable text file named main.py is queued with score 100. -/
theorem c10_witness :
    triage_handle_file (fun _ => some [0, 0, 0]) ⟨[], false⟩ "d/logo.png"
      = (⟨[], false⟩, [.fileSkipped "d/logo.png" "binary/asset"])
    ∧ triage_handle_file (fun _ => some [65, 66]) ⟨[], false⟩ "d/main.py"
      = (⟨[(100, "d/main.py")], false⟩, []) :=
  ⟨(c10_triage_dichotomy (fun _ => some [0, 0, 0]) ⟨[], false⟩ "d/logo.png").1
     (by decide),
   (c10_triage_dichotomy (fun _ => some [65, 66]) ⟨[], false⟩ "d/main.py").2.1
     (by decide)⟩

/-- C6: priority_score equals the first-match-wins spec rule table
applied to the lower-cased stem and extension of the filename, and is a
function of those two values only (hence deterministic in the path). -/
theorem c6_priority_score_table (p q : String)
    (hstem : pyLower (pyStem (lastSegS p)) = pyLower (pyStem (lastSegS q)))
    (hext : pyLower (pySuffix (lastSegS p)) = pyLower (pySuffix (lastSegS q))) :
    priority_score p
      = spec_priority_score (pyLower (pyStem (lastSegS p)))
          (pyLower (pySuffix (lastSegS p)))
    ∧ priority_score p = priority_score q := by
  refine ⟨rfl, ?_⟩
  unfold priority_score
  rw [hstem, hext]

/-- C6 witness: two paths with stem readme and extension .md in
different cases and directories get the same score, the table value. -/
theorem c6_witness :
    priority_score "a/README.md"
      = spec_priority_score (pyLower (pyStem (lastSegS "a/README.md")))
          (pyLower (pySuffix (lastSegS "a/README.md")))
    ∧ priority_score "a/README.md" = priority_score "b/Readme.MD" :=
  c6_priority_score_table "a/README.md" "b/Readme.MD" (by decide) (by decide)

/-- C8: the validator checks existence, compressed size, container
well-formedness and the CRC scan in that order, emits ZipInvalid with
the reason of the first failing check independently of all later facts,
and emits ZipValid exactly when all four checks pass. -/
theorem c8_validator_check_order (limitMB : Nat) (zipPath : String)
    (a : ArchiveInfo) :
    (a.present = false →
       zip_validator_handle limitMB zipPath a
         = .zipInvalid zipPath "File does not exist")
    ∧ (a.present = true → a.sizeBytes > limitMB * 1048576 →
       zip_validator_handle limitMB zipPath a
         = .zipInvalid zipPath ("Archive exceeds " ++ toString limitMB ++ " MB"))
    ∧ (a.present = true → a.sizeBytes ≤ limitMB * 1048576 →
       a.isZipfile = false →
       zip_validator_handle limitMB zipPath a
         = .zipInvalid zipPath "Not a ZIP archive")
    ∧ (a.present = true → a.sizeBytes ≤ limitMB * 1048576 →
       a.isZipfile = true →
       ((∀ m, a.crc = .readError m →
           zip_validator_handle limitMB zipPath a
             = .zipInvalid zipPath ("ZIP read error: " ++ m))
        ∧ (∀ n, a.crc = .corruptMember n →
           zip_validator_handle limitMB zipPath a
             = .zipInvalid zipPath ("CRC error in member: " ++ n))))
    ∧ (zip_validator_handle limitMB zipPath a = .zipValid zipPath ↔
       a.present = true ∧ a.sizeBytes ≤ limitMB * 1048576
         ∧ a.isZipfile = true ∧ a.crc = .clean) := by
  obtain ⟨pres, size, zipb, crc⟩ := a
  unfold zip_validator_handle
  cases pres <;> cases zipb <;> cases crc <;>
    simp_all <;> split_ifs <;> simp_all

/-- C8 witness: a present, small, well-formed, CRC-clean archive is
declared valid; a missing file is rejected with the existence reason. -/
theorem c8_witness :
    zip_validator_handle 300 "a.zip" ⟨true, 5, true, .clean⟩
      = .zipValid "a.zip"
    ∧ zip_validator_handle 300 "b.zip" ⟨false, 5, true, .clean⟩
      = .zipInvalid "b.zip" "File does not exist" :=
  ⟨(c8_validator_check_order 300 "a.zip" ⟨true, 5, true, .clean⟩).2.2.2.2.mpr
     (by simp),
   (c8_validator_check_order 300 "b.zip" ⟨false, 5, true, .clean⟩).1 rfl⟩

/-- C9: whenever the barrier finalizes, the stored final summary is the
polish result of the heuristic draft: the collaborator return value on
success and the draft unchanged on any failure; a ProjectDraft and a
SummaryPolished event are emitted in both cases. -/
theorem c9_polish_fallback (llm : String → Except String String)
    (s : SynState) (h : (s.analysisDone && truthyTree s.treeText) = true) :
    memGet (maybe_finish llm s).1.memory "project_summary.txt"
      = some (syn_polish llm (synthesise_project s.analyses (s.treeText.getD "")))
    ∧ (maybe_finish llm s).2
      = [.projectDraft (synthesise_project s.analyses (s.treeText.getD "")),
         .summaryPolished "project_summary.txt"]
    ∧ (∀ r, llm (synthesise_project s.analyses (s.treeText.getD "")) = .ok r →
        syn_polish llm (synthesise_project s.analyses (s.treeText.getD "")) = r)
    ∧ (∀ e, llm (synthesise_project s.analyses (s.treeText.getD "")) = .error e →
        syn_polish llm (synthesise_project s.analyses (s.treeText.getD ""))
          = synthesise_project s.analyses (s.treeText.getD "")) := by
  refine ⟨?_, ?_, fun r hr => ?_, fun e he => ?_⟩
  · simp [maybe_finish, h, memGet]
  · simp [maybe_finish, h]
  · simp [syn_polish, hr]
  · simp [syn_polish, he]

/-- C9 witness: with a failing collaborator the stored summary is the
draft itself; the hypotheses are discharged on a concrete state. -/
theorem c9_witness :
    memGet (maybe_finish (fun _ => .error "quota")
        ⟨some "tree", [], true, []⟩).1.memory "project_summary.txt"
      = some (syn_polish (fun _ => .error "quota")
          (synthesise_project [] "tree"))
    ∧ ∀ e, (fun _ => (.error "quota" : Except String String))
          (synthesise_project [] "tree") = .error e →
        syn_polish (fun _ => (.error "quota" : Except String String))
            (synthesise_project [] "tree")
          = synthesise_project [] "tree" :=
  ⟨(c9_polish_fallback (fun _ => .error "quota")
      ⟨some "tree", [], true, []⟩ (by decide)).1,
   (c9_polish_fallback (fun _ => .error "quota")
      ⟨some "tree", [], true, []⟩ (by decide)).2.2.2⟩

/-! ## Lemmas for safe_extract -/

theorem isPrefixOf_append_self {α : Type} [BEq α] [LawfulBEq α]
    (a b : List α) : a.isPrefixOf (a ++ b) = true := by
  induction a with
  | nil => simp [List.isPrefixOf]
  | cons x xs ih => simp [List.isPrefixOf, ih]

theorem isPrefixOf_exists {α : Type} [BEq α] [LawfulBEq α]
    (a t : List α) (h : a.isPrefixOf t = true) : ∃ r, t = a ++ r := by
  induction a generalizing t with
  | nil => exact ⟨t, rfl⟩
  | cons x xs ih =>
    cases t with
    | nil => simp [List.isPrefixOf] at h
    | cons y ys =>
      simp only [List.isPrefixOf, Bool.and_eq_true, beq_iff_eq] at h
      obtain ⟨r, hr⟩ := ih ys h.2
      exact ⟨r, by simp [h.1, hr]⟩

theorem renderChars_append (a b : List String) :
    renderChars (a ++ b) = renderChars a ++ renderChars b := by
  induction a with
  | nil => rfl
  | cons s rest ih => simp [renderChars, ih]

theorem descendant_implies_string_check (base t : List String)
    (h : specIsDescendant base t = true) :
    pyStartswith (renderAbs t) (renderAbs base) = true := by
  obtain ⟨r, hr⟩ := isPrefixOf_exists base t h
  subst hr
  show (renderChars base).isPrefixOf (renderChars (base ++ r)) = true
  rw [renderChars_append]
  exact isPrefixOf_append_self _ _

theorem checkMembers_none_iff (base : List String) (maxBytes : Nat)
    (ms : List ZipMember) :
    checkMembers base maxBytes ms = none ↔
      ∀ m ∈ ms, m.fileSize ≤ maxBytes
        ∧ pyStartswith (renderAbs (resolveTarget base m.filename))
            (renderAbs base) = true := by
  induction ms with
  | nil => simp [checkMembers]
  | cons m rest ih =>
    unfold checkMembers
    split_ifs with h1 h2
    · simp; omega
    · simp only [Bool.not_eq_true'] at h2
      simp [h2]
    · simp only [Bool.not_eq_true', Bool.not_eq_false] at h2
      simp [ih, h2]
      omega

theorem checkMembers_illegal (base : List String) (maxBytes : Nat)
    (ms : List ZipMember) (p : PurePath)
    (h : checkMembers base maxBytes ms = some (.illegalPath p)) :
    (∃ m ∈ ms, m.filename = p)
    ∧ pyStartswith (renderAbs (resolveTarget base p)) (renderAbs base)
        = false := by
  induction ms with
  | nil => simp [checkMembers] at h
  | cons m rest ih =>
    unfold checkMembers at h
    split_ifs at h with h1 h2
    · simp at h
    · simp only [Option.some_inj, ExtractError.illegalPath.injEq] at h
      subst h
      simp only [Bool.not_eq_true'] at h2
      exact ⟨⟨m, by simp⟩, h2⟩
    · obtain ⟨⟨m2, hm2, hfn⟩, hcheck⟩ := ih h
      exact ⟨⟨m2, List.mem_cons_of_mem m hm2, hfn⟩, hcheck⟩

theorem safe_extract_ok_iff (base : List String) (maxBytes : Nat)
    (zf : ZipArchive) :
    (safe_extract base maxBytes zf).result = .ok () ↔
      testzip zf = none ∧ checkMembers base maxBytes zf.members = none := by
  unfold safe_extract
  cases htz : testzip zf <;> cases hcm : checkMembers base maxBytes zf.members <;>
    simp [htz, hcm]

theorem safe_extract_error_no_write (base : List String) (maxBytes : Nat)
    (zf : ZipArchive) (e : ExtractError)
    (h : (safe_extract base maxBytes zf).result = .error e) :
    (safe_extract base maxBytes zf).written = [] := by
  unfold safe_extract at h ⊢
  cases htz : testzip zf <;> simp [htz] at h ⊢
  cases hcm : checkMembers base maxBytes zf.members <;> simp [hcm] at h ⊢

theorem safe_extract_error_inv (base : List String) (maxBytes : Nat)
    (zf : ZipArchive) (e : ExtractError)
    (h : (safe_extract base maxBytes zf).result = .error e) :
    (∃ n, e = .badZip n ∧ testzip zf = some n)
      ∨ checkMembers base maxBytes zf.members = some e := by
  unfold safe_extract at h
  cases htz : testzip zf <;> simp [htz] at h
  · cases hcm : checkMembers base maxBytes zf.members <;> simp [hcm] at h
    subst h; right; rfl
  · subst h; exact Or.inl ⟨_, rfl, rfl⟩

theorem safe_extract_tmpCreated (base : List String) (maxBytes : Nat)
    (zf : ZipArchive) : (safe_extract base maxBytes zf).tmpCreated = true := by
  unfold safe_extract
  cases testzip zf <;> simp
  cases checkMembers base maxBytes zf.members <;> simp

/-- C1 (amended): `safe_extract` aborts naming the offending member and
writes nothing on abort, and proceeds exactly when the CRC scan passes
and every member passes the size cap and the string-prefix containment
check; every true descendant passes that check, but the check itself is
the prefix comparison, not descendance. -/
theorem c1_zipslip_prefix_check (base : List String) (maxBytes : Nat)
    (zf : ZipArchive) :
    (∀ p, (safe_extract base maxBytes zf).result = .error (.illegalPath p) →
       (safe_extract base maxBytes zf).written = []
       ∧ (∃ m ∈ zf.members, m.filename = p)
       ∧ pyStartswith (renderAbs (resolveTarget base p)) (renderAbs base)
           = false
       ∧ specIsDescendant base (resolveTarget base p) = false)
    ∧ (∀ e, (safe_extract base maxBytes zf).result = .error e →
       (safe_extract base maxBytes zf).written = [])
    ∧ ((safe_extract base maxBytes zf).result = .ok () ↔
       testzip zf = none ∧ ∀ m ∈ zf.members,
         m.fileSize ≤ maxBytes
         ∧ pyStartswith (renderAbs (resolveTarget base m.filename))
             (renderAbs base) = true)
    ∧ (∀ t, specIsDescendant base t = true →
       pyStartswith (renderAbs t) (renderAbs base) = true) := by
  refine ⟨fun p hp => ?_, fun e he => safe_extract_error_no_write _ _ _ e he,
          ?_, fun t ht => descendant_implies_string_check base t ht⟩
  · have hw := safe_extract_error_no_write _ _ _ _ hp
    have hinv := safe_extract_error_inv _ _ _ _ hp
    rcases hinv with ⟨n, hen, -⟩ | hcm
    · exact absurd hen (by simp)
    · obtain ⟨hmem, hcheck⟩ := checkMembers_illegal _ _ _ _ hcm
      refine ⟨hw, hmem, hcheck, ?_⟩
      by_contra hdesc
      simp only [Bool.not_eq_false] at hdesc
      rw [descendant_implies_string_check base _ hdesc] at hcheck
      exact absurd hcheck (by simp)
  · rw [safe_extract_ok_iff, checkMembers_none_iff]

/-- Working directory of the counterexamples (a resolved mkdtemp path). -/
def cexBase : List String := ["tmp", "ai_analyser_abc"]

/-- A member that climbs out of the working directory into a sibling
directory whose name shares the working directory name as a string
prefix. -/
def cexMember : ZipMember :=
  ⟨⟨false, ["..", "ai_analyser_abc_evil", "x.txt"]⟩, 1, true⟩

/-- C1 counterexample: the member resolves outside the working
directory (not a descendant), yet `safe_extract` proceeds and writes it,
because the canonical target string merely starts with the working
directory string.  This refutes both directions of the claim at this
input: no abort happens for a non-descendant, and extraction proceeds
although not every member is confined. -/
theorem c1_counterexample :
    (safe_extract cexBase 1000 ⟨[cexMember]⟩).result = .ok ()
    ∧ (safe_extract cexBase 1000 ⟨[cexMember]⟩).written = [cexMember.filename]
    ∧ resolveTarget cexBase cexMember.filename
        = ["tmp", "ai_analyser_abc_evil", "x.txt"]
    ∧ specIsDescendant cexBase (resolveTarget cexBase cexMember.filename)
        = false
    ∧ pyStartswith
        (renderAbs (resolveTarget cexBase cexMember.filename))
        (renderAbs cexBase) = true :=
  ⟨rfl, rfl, by decide, by decide, by decide⟩

/-- C1 witness: a benign one-member archive passes the amended
characterisation, and a genuine descendant target passes the string
check. -/
theorem c1_witness :
    (safe_extract ["tmp", "w1"] 10 ⟨[⟨⟨false, ["a.txt"]⟩, 5, true⟩]⟩).result
      = .ok ()
    ∧ pyStartswith (renderAbs ["tmp", "w1", "a.txt"]) (renderAbs ["tmp", "w1"])
        = true :=
  ⟨(c1_zipslip_prefix_check ["tmp", "w1"] 10
      ⟨[⟨⟨false, ["a.txt"]⟩, 5, true⟩]⟩).2.2.1.mpr ⟨by decide, by decide⟩,
   (c1_zipslip_prefix_check ["tmp", "w1"] 10
      ⟨[⟨⟨false, ["a.txt"]⟩, 5, true⟩]⟩).2.2.2 ["tmp", "w1", "a.txt"]
     (by decide)⟩

/-- C3 (amended): when extraction aborts, exactly one ExtractionFailed
event carrying the failure reason is emitted and no FileDiscovered or
ExtractionDone is emitted; but the created working directory is not
removed: the handler does not delete it and on_shutdown deletes only a
recorded directory, which an aborted run never records. -/
theorem c3_abort_events_no_cleanup (base : List String) (maxBytes : Nat)
    (zf : ZipArchive) (deleteFlag : Bool) (e : ExtractError)
    (h : (safe_extract base maxBytes zf).result = .error e) :
    (extraction_handle base maxBytes zf).events = [.extractionFailed e]
    ∧ (extraction_handle base maxBytes zf).tmpCreated = true
    ∧ (extraction_handle base maxBytes zf).tmpDirRecorded = false
    ∧ extraction_shutdown_removes deleteFlag (extraction_handle base maxBytes zf)
        = false := by
  have hc := safe_extract_tmpCreated base maxBytes zf
  unfold extraction_handle extraction_shutdown_removes
  simp [h, hc]

/-- C3 counterexample: an archive with one oversized member aborts, the
ExtractionFailed event is emitted, no FileDiscovered is emitted — and
the created working directory is never removed, even with the
delete-temp setting enabled.  This refutes the removal conjunct of the
claim. -/
theorem c3_counterexample :
    (extraction_handle ["tmp", "w3"] 100
        ⟨[⟨⟨false, ["big.bin"]⟩, 999999, true⟩]⟩).events
      = [.extractionFailed (.oversize ⟨false, ["big.bin"]⟩ 999999)]
    ∧ (extraction_handle ["tmp", "w3"] 100
        ⟨[⟨⟨false, ["big.bin"]⟩, 999999, true⟩]⟩).tmpCreated = true
    ∧ extraction_shutdown_removes true
        (extraction_handle ["tmp", "w3"] 100
          ⟨[⟨⟨false, ["big.bin"]⟩, 999999, true⟩]⟩) = false :=
  ⟨by decide, by decide, by decide⟩

/-- C3 witness: the amended theorem applied to the oversized-member
archive, with the abort hypothesis discharged by computation. -/
theorem c3_witness :
    (extraction_handle ["tmp", "w4"] 100
        ⟨[⟨⟨false, ["huge.iso"]⟩, 500000, true⟩]⟩).events
      = [.extractionFailed (.oversize ⟨false, ["huge.iso"]⟩ 500000)]
    ∧ (extraction_handle ["tmp", "w4"] 100
        ⟨[⟨⟨false, ["huge.iso"]⟩, 500000, true⟩]⟩).tmpCreated = true
    ∧ (extraction_handle ["tmp", "w4"] 100
        ⟨[⟨⟨false, ["huge.iso"]⟩, 500000, true⟩]⟩).tmpDirRecorded = false
    ∧ extraction_shutdown_removes true
        (extraction_handle ["tmp", "w4"] 100
          ⟨[⟨⟨false, ["huge.iso"]⟩, 500000, true⟩]⟩) = false :=
  c3_abort_events_no_cleanup ["tmp", "w4"] 100
    ⟨[⟨⟨false, ["huge.iso"]⟩, 500000, true⟩]⟩ true
    (.oversize ⟨false, ["huge.iso"]⟩ 500000) rfl

/-! ## Lemmas for the synthesis barrier -/

/-- Initial synthesizer state (`__init__`), with the shared memory as a
parameter. -/
def syn_init (mem0 : List (String × String)) : SynState :=
  ⟨none, [], false, mem0⟩

theorem countDrafts_append (a b : List SynOut) :
    countDrafts (a ++ b) = countDrafts a + countDrafts b := by
  simp [countDrafts, List.filter_append]

theorem maybe_finish_skip (llm : String → Except String String) (s : SynState)
    (h : (s.analysisDone && truthyTree s.treeText) = false) :
    maybe_finish llm s = (s, []) := by
  unfold maybe_finish
  rw [if_neg]
  simp [h]

theorem syn_run_append (llm : String → Except String String) (s : SynState)
    (l1 l2 : List SynEvent) :
    syn_run llm s (l1 ++ l2)
      = ((syn_run llm (syn_run llm s l1).1 l2).1,
         (syn_run llm s l1).2 ++ (syn_run llm (syn_run llm s l1).1 l2).2) := by
  induction l1 generalizing s with
  | nil => simp [syn_run]
  | cons e es ih => simp [syn_run, ih]

theorem syn_run_analysed (llm : String → Except String String) (s : SynState)
    (pre : List AnalysisEntry) :
    syn_run llm s (pre.map SynEvent.fileAnalysed)
      = ({ s with analyses := s.analyses ++ pre }, []) := by
  induction pre generalizing s with
  | nil => simp [syn_run]
  | cons e es ih => simp [syn_run, syn_handle, ih]

theorem syn_run_no_analysisComplete (llm : String → Except String String)
    (s : SynState) (evs : List SynEvent) (hdone : s.analysisDone = false)
    (h : SynEvent.analysisComplete ∉ evs) :
    countDrafts (syn_run llm s evs).2 = 0
    ∧ (syn_run llm s evs).1.analysisDone = false := by
  induction evs generalizing s with
  | nil => simp [syn_run, countDrafts, hdone]
  | cons e es ih =>
    have hes : SynEvent.analysisComplete ∉ es :=
      fun hc => h (List.mem_cons_of_mem _ hc)
    cases e with
    | treeBuilt tp =>
      have hskip := maybe_finish_skip llm
        { s with treeText := some (memGetD s.memory tp) } (by simp [hdone])
      have := ih { s with treeText := some (memGetD s.memory tp) }
        (by simp [hdone]) hes
      simp [syn_run, syn_handle, hskip, countDrafts_append]
      exact this
    | fileAnalysed a =>
      have := ih { s with analyses := s.analyses ++ [a] } (by simp [hdone]) hes
      simp [syn_run, syn_handle, countDrafts_append]
      exact this
    | analysisComplete => exact absurd (List.mem_cons_self _ _) h

theorem syn_run_no_treeBuilt (llm : String → Except String String)
    (s : SynState) (evs : List SynEvent)
    (htree : truthyTree s.treeText = false)
    (h : ∀ tp, SynEvent.treeBuilt tp ∉ evs) :
    countDrafts (syn_run llm s evs).2 = 0
    ∧ truthyTree (syn_run llm s evs).1.treeText = false := by
  induction evs generalizing s with
  | nil => simp [syn_run, countDrafts, htree]
  | cons e es ih =>
    have hes : ∀ tp, SynEvent.treeBuilt tp ∉ es :=
      fun tp hc => h tp (List.mem_cons_of_mem _ hc)
    cases e with
    | treeBuilt tp => exact absurd (List.mem_cons_self _ _) (h tp)
    | fileAnalysed a =>
      have := ih { s with analyses := s.analyses ++ [a] } (by simp [htree]) hes
      simp [syn_run, syn_handle, countDrafts_append]
      exact this
    | analysisComplete =>
      have hskip := maybe_finish_skip llm { s with analysisDone := true }
        (by simp [htree])
      have := ih { s with analysisDone := true } (by simp [htree]) hes
      simp [syn_run, syn_handle, hskip, countDrafts_append]
      exact this

/-- C2 (amended): the finalize step runs only when both signals have
been received (and the tree text loaded from memory is non-empty), runs
with identical output whichever of TreeBuilt and AnalysisComplete
arrives last, and runs exactly once when each signal is delivered
exactly once; there is however no idempotent guard, so duplicate signal
delivery re-runs finalize (see the counterexample). -/
theorem c2_barrier_amended (llm : String → Except String String)
    (mem0 : List (String × String)) (pre : List AnalysisEntry) (tp : String)
    (htree : memGetD mem0 tp ≠ "") :
    (syn_run llm (syn_init mem0) (pre.map SynEvent.fileAnalysed
        ++ [SynEvent.treeBuilt tp, SynEvent.analysisComplete])).2
      = (syn_run llm (syn_init mem0) (pre.map SynEvent.fileAnalysed
        ++ [SynEvent.analysisComplete, SynEvent.treeBuilt tp])).2
    ∧ countDrafts (syn_run llm (syn_init mem0) (pre.map SynEvent.fileAnalysed
        ++ [SynEvent.treeBuilt tp, SynEvent.analysisComplete])).2 = 1
    ∧ (∀ evs, SynEvent.analysisComplete ∉ evs →
        countDrafts (syn_run llm (syn_init mem0) evs).2 = 0)
    ∧ (∀ evs, (∀ t2, SynEvent.treeBuilt t2 ∉ evs) →
        countDrafts (syn_run llm (syn_init mem0) evs).2 = 0) := by
  have hbeq : (memGetD mem0 tp == "") = false :=
    beq_eq_false_iff_ne.mpr htree
  have htruthy : truthyTree (some (memGetD mem0 tp)) = true := by
    simp [truthyTree, hbeq]
  have h1 := syn_run_analysed llm (syn_init mem0) pre
  refine ⟨?_, ?_,
          fun evs hna => (syn_run_no_analysisComplete llm (syn_init mem0) evs
            rfl hna).1,
          fun evs hnt => (syn_run_no_treeBuilt llm (syn_init mem0) evs
            (by simp [syn_init, truthyTree]) hnt).1⟩
  · rw [syn_run_append, syn_run_append, h1]
    simp only [syn_init] at h1 ⊢
    simp [syn_run, syn_handle, maybe_finish, htruthy, truthyTree, htree]
  · rw [syn_run_append, h1]
    simp only [syn_init] at h1 ⊢
    simp [syn_run, syn_handle, maybe_finish, htruthy, truthyTree, htree,
      countDrafts_append, countDrafts]

/-- C2 counterexample: with the tree text present in memory, delivering
AnalysisComplete twice after TreeBuilt makes finalize run twice — two
ProjectDraft (and two SummaryPolished) emissions in one run, refuting
the at-most-once conjunct of the claim. -/
theorem c2_counterexample :
    countDrafts (syn_run (fun _ => .error "no llm")
        (syn_init [("project_tree.txt", "tree")])
        [SynEvent.treeBuilt "project_tree.txt", SynEvent.analysisComplete,
         SynEvent.analysisComplete]).2 = 2 := by
  decide

/-- C2 witness: on a concrete memory and event sequences with each
signal delivered once, the two arrival orders emit identical outputs,
exactly one draft, and sequences missing either signal emit none. -/
theorem c2_witness :
    (syn_run (fun _ => .error "no llm")
        (syn_init [("project_tree.txt", "tree")])
        ([].map SynEvent.fileAnalysed
          ++ [SynEvent.treeBuilt "project_tree.txt",
              SynEvent.analysisComplete])).2
      = (syn_run (fun _ => .error "no llm")
          (syn_init [("project_tree.txt", "tree")])
          ([].map SynEvent.fileAnalysed
            ++ [SynEvent.analysisComplete,
                SynEvent.treeBuilt "project_tree.txt"])).2
    ∧ countDrafts (syn_run (fun _ => .error "no llm")
        (syn_init [("project_tree.txt", "tree")])
        ([].map SynEvent.fileAnalysed
          ++ [SynEvent.treeBuilt "project_tree.txt",
              SynEvent.analysisComplete])).2 = 1 :=
  ⟨(c2_barrier_amended (fun _ => .error "no llm")
      [("project_tree.txt", "tree")] [] "project_tree.txt" (by decide)).1,
   (c2_barrier_amended (fun _ => .error "no llm")
      [("project_tree.txt", "tree")] [] "project_tree.txt" (by decide)).2.1⟩

/-! ## Lemmas for content analysis -/

theorem dropLast_isPrefixOf {α : Type} [BEq α] [LawfulBEq α] (l : List α) :
    l.dropLast.isPrefixOf l = true := by
  induction l with
  | nil => simp [List.isPrefixOf]
  | cons a as ih =>
    cases as with
    | nil => simp [List.isPrefixOf]
    | cons b bs => simp [List.dropLast, List.isPrefixOf, ih]

theorem analyseText_kind (po : ParseOracles) (relS ext raw : String)
    (e : AnalysisEntry) (h : analyseText po relS ext raw = .ok e) :
    e.kind ∈ (["json", "yaml", "python", "text"] : List String) := by
  unfold analyseText at h
  split at h
  · cases h; simp
  · split at h
    · cases h; simp
    · split_ifs at h
      · split at h
        · cases h; simp
        · cases h; simp
        · cases h
      · cases h; simp

theorem analyseText_ok (po : ParseOracles) (relS ext raw : String)
    (hpy : ext = ".py" → ∀ msg, po.pyDefs raw ≠ PyParseOutcome.otherError msg) :
    ∃ e, analyseText po relS ext raw = .ok e := by
  unfold analyseText
  split
  · exact ⟨_, rfl⟩
  · split
    · exact ⟨_, rfl⟩
    · split_ifs with hext
      · split
        · exact ⟨_, rfl⟩
        · exact ⟨_, rfl⟩
        · rename_i msg heq
          exact absurd heq (hpy hext msg)
      · exact ⟨_, rfl⟩

theorem analyseText_pyError (po : ParseOracles) (relS raw msg : String)
    (hpo : po.pyDefs raw = PyParseOutcome.otherError msg) :
    analyseText po relS ".py" raw = .error msg := by
  unfold analyseText
  simp [hpo]

theorem analyse_file_ok (po : ParseOracles) (fs : List String → String)
    (p base : List String) (h : base.isPrefixOf p = true)
    (hpy : pyLower (pySuffix (lastSeg p)) = ".py" →
      ∀ msg, po.pyDefs (fs p) ≠ PyParseOutcome.otherError msg) :
    ∃ e, analyse_file po fs p base = .ok e
      ∧ e.kind ∈ (["asset", "json", "yaml", "python", "text"] : List String) := by
  have hrel : relTo p base = some (p.drop base.length) := by simp [relTo, h]
  unfold analyse_file
  rw [hrel]
  simp only
  split_ifs with hasset
  · exact ⟨_, rfl, by simp⟩
  · obtain ⟨e, he⟩ := analyseText_ok po (renderRel (p.drop base.length))
      (pyLower (pySuffix (lastSeg p))) (fs p) hpy
    refine ⟨e, he, ?_⟩
    have := analyseText_kind po (renderRel (p.drop base.length))
      (pyLower (pySuffix (lastSeg p))) (fs p) e he
    simp only [List.mem_cons, List.not_mem_nil, or_false] at this ⊢
    tauto

/-- C4 (amended): for every FileForAnalysis whose path lies under the
recorded base directory (or any path when none is recorded) and whose
content does not make `ast.parse` raise outside `SyntaxError` in the
`.py` branch, exactly one FileAnalysisResult is produced and emitted,
with a kind from the closed classification set, for arbitrary file
bytes and caught parser failures; but the analysis is not total: a path
outside the recorded base raises in `relative_to` (counterexample), and
a `.py` member on which `ast.parse` raises a non-SyntaxError exception
(RecursionError on deep nesting; ValueError on null bytes on Python at
most 3.11) propagates the exception and emits nothing — the second
conjunct. -/
theorem c4_analysis_total_under_base (po : ParseOracles)
    (fs : List String → String) (s : FAState) (p : List String)
    (h : s.baseDir = none ∨ ∃ b, s.baseDir = some b ∧ b.isPrefixOf p = true) :
    ((pyLower (pySuffix (lastSeg p)) = ".py" →
        ∀ msg, po.pyDefs (fs p) ≠ PyParseOutcome.otherError msg) →
      ∃ entry, fa_analyse po fs s p
          = .ok ({ s with results := s.results ++ [entry] },
                 [.fileAnalysed entry])
        ∧ entry.kind ∈ (["asset", "json", "yaml", "python", "text"] : List String))
    ∧ (∀ msg, pyLower (pySuffix (lastSeg p)) = ".py" →
        po.pyDefs (fs p) = PyParseOutcome.otherError msg →
        fa_analyse po fs s p = .error msg) := by
  have hbase : (s.baseDir.getD p.dropLast).isPrefixOf p = true := by
    rcases h with h | ⟨b, hb, hpre⟩
    · rw [h]; exact dropLast_isPrefixOf p
    · rw [hb]; simpa using hpre
  have hrel : relTo p (s.baseDir.getD p.dropLast)
      = some (p.drop (s.baseDir.getD p.dropLast).length) := by
    simp [relTo, hbase]
  constructor
  · intro hpy
    obtain ⟨e, he, hkind⟩ := analyse_file_ok po fs p _ hbase hpy
    exact ⟨e, by simp [fa_analyse, he], hkind⟩
  · intro msg hext hpo
    have hasset : pyLower (pySuffix (lastSeg p)) ∉ ASSET_EXTS := by
      rw [hext]; decide
    have herr : analyse_file po fs p (s.baseDir.getD p.dropLast)
        = .error msg := by
      unfold analyse_file
      rw [hrel]
      simp only
      rw [if_neg hasset, hext]
      exact analyseText_pyError po _ (fs p) msg hpo
    simp [fa_analyse, herr]

/-- Parser oracles on which every parse attempt fails with a caught
failure (JSON and YAML exceptions, a Python SyntaxError — every branch
falls through), with the yaml module absent. -/
def noneOracles : ParseOracles :=
  ⟨fun _ => none, false, fun _ => none, fun _ => .syntaxError⟩

/-- Parser oracles on which `ast.parse` raises an uncaught
RecursionError (as on deeply nested ASCII source within the 64 KB read
window). -/
def deepNestOracles : ParseOracles :=
  ⟨fun _ => none, false, fun _ => none,
   fun _ => .otherError "RecursionError: maximum recursion depth exceeded"⟩

/-- C4 counterexample: once ExtractionDone recorded a base directory, a
FileForAnalysis whose path is not under it makes relative_to raise, so no
FileAnalysisResult is produced or emitted for that event, refuting
totality over arbitrary path inputs. -/
theorem c4_counterexample :
    fa_analyse noneOracles (fun _ => "") ⟨some ["tmp", "x"], []⟩ ["other", "f"]
      = .error "ValueError: path not relative to base" := rfl

/-- C4 witness: with no base recorded, a markdown file is analysed into
exactly one emitted result of a legal kind, and a deeply nested .py file
whose parse overflows propagates the RecursionError with no result. -/
theorem c4_witness :
    (∃ entry, fa_analyse noneOracles (fun _ => "# hello") ⟨none, []⟩ ["readme.md"]
        = .ok (⟨none, [entry]⟩, [.fileAnalysed entry])
      ∧ entry.kind ∈ (["asset", "json", "yaml", "python", "text"] : List String))
    ∧ fa_analyse deepNestOracles (fun _ => "----1") ⟨none, []⟩ ["deep.py"]
        = .error "RecursionError: maximum recursion depth exceeded" := by
  constructor
  · simpa using (c4_analysis_total_under_base noneOracles (fun _ => "# hello")
      ⟨none, []⟩ ["readme.md"] (Or.inl rfl)).1 (by intro hx msg; simp [noneOracles])
  · exact (c4_analysis_total_under_base deepNestOracles (fun _ => "----1")
      ⟨none, []⟩ ["deep.py"] (Or.inl rfl)).2
      "RecursionError: maximum recursion depth exceeded" (by decide) rfl

/-! ## Lemmas for summary bounds -/

theorem pyStripChars_length_le (cs : List Char) :
    (pyStripChars cs).length ≤ cs.length := by
  unfold pyStripChars
  have h1 : (cs.dropWhile pySpace).length ≤ cs.length :=
    (List.dropWhile_sublist pySpace).length_le
  have h2 : ((cs.dropWhile pySpace).reverse.dropWhile pySpace).length
      ≤ (cs.dropWhile pySpace).reverse.length :=
    (List.dropWhile_sublist pySpace).length_le
  simp only [List.length_reverse] at h2 ⊢
  omega

/-- C7 (amended): on text whose stripped form has no heading match, the
generic text summary is bounded: at most 161 characters (the 160
character window plus the ellipsis, and the sentence branch stops within
the window).  The heading branch and the JSON/YAML/Python listing
branches are bounded only by the input heading line, key and definition
name lengths (see the counterexample). -/
theorem c7_summary_bounded_no_heading (raw : String)
    (h : headingGroup (pyStripChars raw.data) = none) :
    (summarise_text raw 160).length ≤ 161 := by
  simp only [summarise_text, h]
  cases hf : findSentence (pyStripChars raw.data) 0 with
  | none =>
    simp only
    split_ifs with hlen
    · have := List.length_take 160 (pyStripChars raw.data)
      simp only [String.length, List.length_append,
        List.length_cons, List.length_nil]
      omega
    · simp only [String.length]
      omega
  | some i =>
    simp only
    split_ifs with hi hlen
    · have h1 := pyStripChars_length_le ((pyStripChars raw.data).take (i + 2))
      have h2 := List.length_take (i + 2) (pyStripChars raw.data)
      simp only [String.length]
      omega
    · have := List.length_take 160 (pyStripChars raw.data)
      simp only [String.length, List.length_append, List.length_cons,
        List.length_nil]
      omega
    · simp only [String.length]
      omega

set_option maxRecDepth 4000 in
/-- C7 witness: a short sentence input stays within the bound, with the
no-heading hypothesis discharged by computation. -/
theorem c7_witness :
    (summarise_text "Hello there. More text follows here." 160).length ≤ 161 :=
  c7_summary_bounded_no_heading "Hello there. More text follows here."
    (by decide)

/-- A markdown file whose single heading line is 600 characters long. -/
def hugeHeading : String :=
  String.mk ('#' :: ' ' :: List.replicate 600 'a')

set_option maxRecDepth 8000 in
/-- C7 counterexample: a heading of 600 characters flows into the
summary unchanged, so the emitted FileAnalysisResult summary has length
600, beyond every reading of the roughly-500-character bound. -/
theorem c7_counterexample :
    analyse_file noneOracles (fun _ => hugeHeading) ["readme.md"] []
      = .ok ⟨"readme.md", "text", String.mk (List.replicate 600 'a')⟩
    ∧ 500 < (String.mk (List.replicate 600 'a')).length := by
  refine ⟨rfl, ?_⟩
  simp [String.length]

end AIPA
